import Mathlib

/-!
Verification of the goyave validation core: the path engine
(`helper/walk/walk.go`) and the date validation rules
(`validation` package, date comparison rules).

The Go source is shallowly embedded: pointers become `Option`,
mutation becomes explicit state passing, `panic` and returned
errors become `Except`/explicit result constructors.
-/

namespace Goyave

/-- `PathType` of the element being explored (walk.go). -/
inductive PathType where
  | element
  | array
  | object
deriving DecidableEq, Repr

/-- `Path` from walk.go: a step in the exploration of a data structure.
Fields mirror the Go struct: `Next *Path`, `Index *int`, `Name string`,
`Type PathType`. -/
inductive Path where
  | mk (next : Option Path) (index : Option Int) (name : String) (ty : PathType)
deriving Repr

def Path.next : Path → Option Path
  | .mk n _ _ _ => n

def Path.index : Path → Option Int
  | .mk _ i _ _ => i

def Path.name : Path → String
  | .mk _ _ n _ => n

def Path.ty : Path → PathType
  | .mk _ _ _ t => t

/-- The list of step kinds of a path chain, in order. -/
def Path.kinds : Path → List PathType
  | .mk none _ _ t => [t]
  | .mk (some n) _ _ t => t :: n.kinds

/-- `HasArray` from walk.go: true if at least one step involves an array. -/
def Path.hasArray : Path → Bool
  | .mk none _ _ t => t = .array
  | .mk (some n) _ _ t => t = .array || n.hasArray

/-- `Tail` from walk.go: the last step in the path. -/
def Path.tail : Path → Path
  | .mk none i nm t => .mk none i nm t
  | .mk (some n) _ _ _ => n.tail

/-- The documented invariant of walk.go: steps whose type is not
`PathTypeElement` have a non-nil `Next`, and an element (leaf) step
has a nil `Next`. -/
def Path.chainInv : Path → Bool
  | .mk none _ _ t => t = .element
  | .mk (some n) _ _ t => t ≠ .element && n.chainInv

/-- `isValidSyntax` from walk.go (returns true when the pair of adjacent
runes is ILLEGAL, as in the source). -/
def isValidSyntax (r : Char) (next : Char) : Bool :=
  (r = '.' && next = '.') ||
    (r = '[' && next ≠ ']') ||
    (r = '.' && (next = ']' || next = '[')) ||
    (r ≠ '.' && r ≠ '[' && next = ']') ||
    (r = ']' && next ≠ '[' && next ≠ '.')

/-- Result of one invocation of the scanner split function from
`createPathScanner`: either a token together with the unconsumed rest of
the data, an error, or end of input. -/
inductive SplitResult where
  | tok (t : List Char) (rest : List Char)
  | fail (msg : String)
  | eof

/-- The loop body of the split function in `createPathScanner`.
`acc` is the reversed list of runes already examined in this token
(so `acc = []` corresponds to `i == 0` in the source). -/
def splitLoop (path : String) (acc : List Char) : List Char → SplitResult
  | [] => .eof
  | [r] =>
      -- last rune of the data: `r == '.' || r == '['` is illegal,
      -- otherwise the loop ends and the whole data is the final token
      if r = '.' ∨ r = '[' then
        .fail ("Illegal syntax: \"" ++ path ++ "\"")
      else
        .tok ((r :: acc).reverse) []
  | r :: next :: rest =>
      if isValidSyntax r next then
        .fail ("Illegal syntax: \"" ++ path ++ "\"")
      else if r = '.' ∧ acc = [] then
        .tok ((r :: acc).reverse) (next :: rest)
      else if next = '.' ∨ next = '[' then
        .tok ((r :: acc).reverse) (next :: rest)
      else
        splitLoop path (r :: acc) (next :: rest)

/-- One invocation of the split function from `createPathScanner`:
`path` is the full original string (captured by the closure), `data`
the remaining unconsumed input. -/
def splitOnce (path : String) (data : List Char) : SplitResult :=
  match path.data with
  | [] => .fail ("Illegal syntax: \"" ++ path ++ "\"")
  | c :: _ =>
      if c = '.' then .fail ("Illegal syntax: \"" ++ path ++ "\"")
      else splitLoop path [] data

/-- Repeatedly invoke the split function, collecting tokens, as
`bufio.Scanner` does. Each emitted token consumes at least one rune, so
`fuel = data.length + 1` always suffices. -/
def tokenizeAux (path : String) (fuel : Nat) (data : List Char) :
    Except String (List String) :=
  match fuel with
  | 0 => .error ("Illegal syntax: \"" ++ path ++ "\"")
  | fuel' + 1 =>
      match splitOnce path data with
      | .eof => .ok []
      | .fail msg => .error msg
      | .tok t rest =>
          match tokenizeAux path fuel' rest with
          | .ok ts => .ok (String.mk t :: ts)
          | .error e => .error e

/-- The token stream produced by the scanner of `createPathScanner` for
the given path string. -/
def tokenize (path : String) : Except String (List String) :=
  tokenizeAux path (path.data.length + 1) path.data

/-- A path step as built by `Parse` before the chain is linked: name,
index and type of a Go `Path` node, without the `Next` pointer (`Parse`
never sets `Index`). -/
structure Step where
  name : String
  index : Option Int
  ty : PathType
deriving DecidableEq, Repr

/-- Parse state: the steps whose construction is finished (the part of
the chain strictly before the cursor) and the cursor node currently
being mutated. -/
abbrev ParseState := List Step × Step

/-- One iteration of the token loop in `Parse` (walk.go).  Only the
cursor node is ever mutated by the Go code, so the state is the list of
completed nodes plus the cursor. -/
def processTok (st : ParseState) (t : String) : ParseState :=
  if t = "[]" then
    if st.2.ty = .array then
      (st.1 ++ [st.2], ⟨"", none, .array⟩)
    else
      (st.1, { st.2 with ty := .array })
  else if t = "." then
    if st.2.ty = .array then
      (st.1 ++ [st.2, ⟨"", none, .object⟩], ⟨"", none, .element⟩)
    else
      (st.1 ++ [{ st.2 with ty := .object }], ⟨"", none, .element⟩)
  else
    (st.1, { st.2 with name := t })

/-- The final fix-up of `Parse`: if the last step is not an element,
append a trailing element step. -/
def finalizeSteps (st : ParseState) : List Step :=
  if st.2.ty ≠ .element then
    st.1 ++ [st.2, ⟨"", none, .element⟩]
  else
    st.1 ++ [st.2]

/-- Link a non-empty list of steps into a `Path` chain. -/
def stepsToChain (s : Step) : List Step → Path
  | [] => .mk none s.index s.name s.ty
  | t :: rest => .mk (some (stepsToChain t rest)) s.index s.name s.ty

/-- Build the `Path` chain from the token stream, as the loop body of
`Parse` does. The initial state is the zero-value root node. -/
def buildPath (toks : List String) : Path :=
  match finalizeSteps (toks.foldl processTok ([], ⟨"", none, .element⟩)) with
  | [] => .mk none none "" .element
  | s :: rest => stepsToChain s rest

/-- `Parse` from walk.go: tokenize the path string and build the chain.
A scanner error aborts (the partially built chain is discarded). -/
def Parse (p : String) : Except String Path :=
  (tokenize p).map buildPath

/-!
## Time values and `time.Parse`

The validation rules (validation package, date rules file) compare
`time.Time` values obtained from `time.Parse` with the layouts
`"2006-01-02"` and `"2006-01-02T15:04:05"` (or a caller-supplied
layout for the `date` rule).  A parsed time is modelled by its broken
down calendar fields; `Before`/`After`/`Equal` compare the encoded
instant.  `time.Parse` is modelled for layouts built from the
reference components `2006`, `01`, `02`, `15`, `04`, `05` and literal
characters, which covers every layout appearing in the source.
-/

/-- A `time.Time` value as produced by `time.Parse` (UTC, second
resolution: the layouts used by the source carry no zone and no
fractional seconds). -/
structure DateTime where
  year : Nat
  month : Nat
  day : Nat
  hour : Nat
  minute : Nat
  second : Nat
deriving DecidableEq, Repr

/-- Injective encoding of the calendar fields into a linearly ordered
instant (fields of parsed times are range-checked, so the order agrees
with chronological order). -/
def DateTime.encode (d : DateTime) : Nat :=
  ((((d.year * 13 + d.month) * 32 + d.day) * 24 + d.hour) * 60 + d.minute) * 60 + d.second

/-- `time.Time.Before`. -/
def timeBefore (a b : DateTime) : Bool :=
  a.encode < b.encode

/-- `time.Time.After`. -/
def timeAfter (a b : DateTime) : Bool :=
  b.encode < a.encode

/-- `time.Time.Equal`. -/
def timeEqual (a b : DateTime) : Bool :=
  a.encode = b.encode

def digitVal (c : Char) : Option Nat :=
  if c.isDigit then some (c.toNat - '0'.toNat) else none

/-- Parse exactly `n` decimal digits (Go `getnum` with `fixed = true`,
and the four digit year of `2006`). -/
def parseFixedDigits (acc : Nat) : Nat → List Char → Option (Nat × List Char)
  | 0, s => some (acc, s)
  | _ + 1, [] => none
  | n + 1, c :: s =>
      match digitVal c with
      | some d => parseFixedDigits (acc * 10 + d) n s
      | none => none

/-- Parse one or two decimal digits (Go `getnum` with `fixed = false`,
used for the hour component `15`). -/
def parseHourDigits : List Char → Option (Nat × List Char)
  | [] => none
  | [c] =>
      match digitVal c with
      | some d => some (d, [])
      | none => none
  | c₁ :: c₂ :: rest =>
      match digitVal c₁ with
      | none => none
      | some d₁ =>
          match digitVal c₂ with
          | some d₂ => some (d₁ * 10 + d₂, rest)
          | none => some (d₁, c₂ :: rest)

/-- Match the layout against the value, component by component, as the
main loop of `time.Parse` does.  Components missing from the layout
keep Go's defaults (January 1, year 0, midnight). -/
def matchLayout : List Char → List Char → DateTime → Option DateTime
  | [], [], acc => some acc
  | [], _ :: _, _ => none
  | '2' :: '0' :: '0' :: '6' :: lr, s, acc =>
      match parseFixedDigits 0 4 s with
      | some (y, s') => matchLayout lr s' { acc with year := y }
      | none => none
  | '0' :: '1' :: lr, s, acc =>
      match parseFixedDigits 0 2 s with
      | some (m, s') => matchLayout lr s' { acc with month := m }
      | none => none
  | '0' :: '2' :: lr, s, acc =>
      match parseFixedDigits 0 2 s with
      | some (d, s') => matchLayout lr s' { acc with day := d }
      | none => none
  | '1' :: '5' :: lr, s, acc =>
      match parseHourDigits s with
      | some (h, s') => matchLayout lr s' { acc with hour := h }
      | none => none
  | '0' :: '4' :: lr, s, acc =>
      match parseFixedDigits 0 2 s with
      | some (m, s') => matchLayout lr s' { acc with minute := m }
      | none => none
  | '0' :: '5' :: lr, s, acc =>
      match parseFixedDigits 0 2 s with
      | some (sec, s') => matchLayout lr s' { acc with second := sec }
      | none => none
  | _ :: _, [], _ => none
  | c :: lr, x :: s, acc => if c = x then matchLayout lr s acc else none

def isLeapYear (y : Nat) : Bool :=
  y % 4 = 0 && (y % 100 ≠ 0 || y % 400 = 0)

def daysInMonth (year month : Nat) : Nat :=
  if month = 2 then (if isLeapYear year then 29 else 28)
  else if month = 4 ∨ month = 6 ∨ month = 9 ∨ month = 11 then 30
  else 31

/-- The range checks `time.Parse` performs on the parsed components. -/
def validDateTime (d : DateTime) : Bool :=
  1 ≤ d.month && d.month ≤ 12 && 1 ≤ d.day && d.day ≤ daysInMonth d.year d.month &&
    d.hour ≤ 23 && d.minute ≤ 59 && d.second ≤ 59

/-- `time.Parse layout value`: `none` models a returned parse error. -/
def timeParse (layout value : String) : Option DateTime :=
  match matchLayout layout.data value.data
      { year := 0, month := 1, day := 1, hour := 0, minute := 0, second := 0 } with
  | some d => if validDateTime d then some d else none
  | none => none

/-!
## The walk algorithm

`Path.walk` from walk.go, with the mutable route bookkeeping (the
`path`/`lastPathElement` arguments of the Go function) made explicit:
`routeRev` is the reversed list of completed route steps and `cur` the
node the Go code mutates through `lastPathElement`.  Invoking the
callback `f` becomes appending a `Context` to the returned list, in
invocation order.
-/

/-- A value of Go dynamic type `interface\x7b\x7d` as handled by the
walker and the validation rules: JSON-like data plus `time.Time`
values produced by date coercion.  `null` stands for a nil interface
value. -/
inductive GoValue where
  | null
  | str (s : String)
  | int (n : Int)
  | time (t : DateTime)
  | obj (fields : List (String × GoValue))
  | arr (elems : List GoValue)
deriving Repr

/-- A node of the route chain the walker builds for `Context.Path`
(name, concrete array index, type). -/
structure RStep where
  name : String
  index : Option Int
  ty : PathType
deriving DecidableEq, Repr

/-- `Context` from walk.go: information sent to the walk callback. -/
structure Context where
  value : GoValue
  parent : GoValue
  path : List RStep
  name : String
  index : Int
  notFound : Bool
deriving Repr

/-- Lookup of a key in a `map[string]interface\x7b\x7d` value. -/
def lookupField (fields : List (String × GoValue)) (key : String) : Option GoValue :=
  match fields with
  | [] => none
  | (k, v) :: rest => if k = key then some v else lookupField rest key

/-- `newNotFoundContext` from walk.go. -/
def newNotFoundContext (parent : GoValue) (path : List RStep) (name : String)
    (index : Int) : Context :=
  { value := .null, parent := parent, path := path, name := name,
    index := index, notFound := true }

/-- The recursive `walk` method from walk.go. -/
def walkF (p : Path) (currentElement : GoValue) (parent : GoValue) (index : Int)
    (routeRev : List RStep) (cur : RStep) : List Context :=
  let lookedUp : Except Context (GoValue × GoValue × Int) :=
    if p.name ≠ "" then
      match currentElement with
      | .obj fields =>
          match lookupField fields p.name with
          | some v => .ok (v, currentElement, -1)
          | none =>
              -- the map type assertion succeeded, so index was set to -1
              .error (newNotFoundContext currentElement ((cur :: routeRev).reverse)
                p.name (-1))
      | _ => .error (newNotFoundContext currentElement ((cur :: routeRev).reverse)
                p.name index)
    else
      .ok (currentElement, parent, index)
  match lookedUp with
  | .error c => [c]
  | .ok (element, parent', index') =>
    match p with
    | .mk pnext pindex pname pty =>
      match pty with
      | .element =>
          [{ value := element, parent := parent', path := (cur :: routeRev).reverse,
             name := pname, index := index', notFound := false }]
      | .array =>
          match element with
          | .arr elems =>
              match pnext with
              | none => []  -- the source dereferences p.Next here, relying on the chain invariant
              | some nx =>
                  if nx.ty ≠ .element ∧ elems.length = 0 then
                    [newNotFoundContext element ((cur :: routeRev).reverse) "" index']
                  else
                    match pindex with
                    | some i =>
                        if i ≥ (elems.length : Int) then
                          [newNotFoundContext element ((cur :: routeRev).reverse) "" i]
                        else if h : 0 ≤ i ∧ i.toNat < elems.length then
                          walkF nx (elems.get ⟨i.toNat, h.2⟩) element i
                            ({ cur with index := some i } :: routeRev)
                            ⟨nx.name, none, nx.ty⟩
                        else
                          []  -- negative fixed index: the source would panic in list.Index
                    | none =>
                        (elems.enum.map (fun iv =>
                          walkF nx iv.2 element (iv.1 : Int)
                            ({ cur with index := some (iv.1 : Int) } :: routeRev)
                            ⟨nx.name, none, nx.ty⟩)).flatten
          | _ => [newNotFoundContext parent' ((cur :: routeRev).reverse) pname index']
      | .object =>
          match pnext with
          | none => []  -- the source dereferences p.Next here, relying on the chain invariant
          | some nx => walkF nx element parent' index' (cur :: routeRev) ⟨nx.name, none, nx.ty⟩

/-- `Walk` from walk.go: walk the path over the data, returning the
contexts passed to the callback, in invocation order.  The fresh root
copy made by the source (`&Path\x7bName: p.Name, Type: p.Type\x7d`)
becomes the initial `cur` route node. -/
def Path.Walk (p : Path) (currentElement : GoValue) : List Context :=
  walkF p currentElement .null (-1) [] ⟨p.name, none, p.ty⟩

/-!
## The date validation rules

From the validation package (date rules file).  The rules are
functions of (field, value, parameters, form); `panic` is modelled by
`Except.error`, a returned `bool` by `Except.ok`.  The form, a Go
`map[string]interface\x7b\x7d`, is an association list with unique
keys; `validateDate` mutates it in place, so it returns the updated
form alongside its boolean.
-/

/-- A form: field name to submitted value. -/
abbrev Form := List (String × GoValue)

/-- Read `form[key]` (comma-ok map access). -/
def formGet (form : Form) (key : String) : Option GoValue :=
  match form with
  | [] => none
  | (k, v) :: rest => if k = key then some v else formGet rest key

/-- Write `form[key] = v` (map assignment: replace the existing entry
or add one). -/
def formSet (form : Form) (key : String) (v : GoValue) : Form :=
  match form with
  | [] => [(key, v)]
  | (k, w) :: rest => if k = key then (key, v) :: rest else (k, w) :: formSet rest key v

/-- `parseDate` from the source: type-assert the value to a string and
`time.Parse` it with the given format. -/
def parseDate (date : GoValue) (format : String) : Except String DateTime :=
  match date with
  | .str s =>
      match timeParse format s with
      | some t => .ok t
      | none => .error ("parsing time \"" ++ s ++ "\" as \"" ++ format ++ "\": cannot parse")
  | _ => .error "Date is not a string so cannot be parsed"

/-- Outcome of `getDates`: the returned list with a nil error, a
returned non-nil error, or a `panic`. -/
inductive DatesResult where
  | ok (dates : List DateTime)
  | err (msg : String)
  | panics (msg : String)

/-- The parameter loop of `getDates`: resolve each parameter to a
comparison time.  A parameter naming a form field uses that field's
value (parsed with the `"2006-01-02"` layout if it is not already a
`time.Time`, aborting with an error if that fails); a parameter naming
no field is parsed as a literal with the `"2006-01-02T15:04:05"`
layout, and a failure there is a `panic`. -/
def getDatesLoop (form : Form) : List String → DatesResult
  | [] => .ok []
  | param :: rest =>
      match formGet form param with
      | some other =>
          match other with
          | .time t =>
              match getDatesLoop form rest with
              | .ok l => .ok (t :: l)
              | e => e
          | _ =>
              match parseDate other "2006-01-02" with
              | .ok t =>
                  match getDatesLoop form rest with
                  | .ok l => .ok (t :: l)
                  | e => e
              | .error _ => .err "Cannot parse date in other field"
      | none =>
          match parseDate (.str param) "2006-01-02T15:04:05" with
          | .ok t =>
              match getDatesLoop form rest with
              | .ok l => .ok (t :: l)
              | e => e
          | .error e => .panics e

/-- `getDates` from the source: the primary value must already be a
`time.Time`, followed by the resolved parameters. -/
def getDates (value : GoValue) (parameters : List String) (form : Form) : DatesResult :=
  match value with
  | .time d =>
      match getDatesLoop form parameters with
      | .ok l => .ok (d :: l)
      | .err m => .err m
      | .panics m => .panics m
  | _ => .err "Value is not a date"

/-- Modelled from the spec: the body of `requireParametersCount` is not
part of the provided sources (only its call sites in the date rules
are).  Per the spec's parameter-count contract, a rule declared with a
parameter count other than the required one is a fatal configuration
error, so the check halts (panic, modelled as `Except.error`) on
violation and is a no-op otherwise. -/
def requireParametersCount (rule : String) (parameters : List String)
    (count : Nat) : Except String Unit :=
  if parameters.length ≠ count then
    .error ("Rule " ++ rule ++ " requires exactly " ++ toString count ++ " parameter(s)")
  else
    .ok ()

/-- `validateDate` from the source: parse the raw value with the first
parameter (default layout `"2006-01-02"` when none is given); on
success store the parsed time in the form and pass, on failure fail.
Returns the boolean together with the (possibly mutated) form. -/
def validateDate (field : String) (value : GoValue) (parameters : List String)
    (form : Form) : Bool × Form :=
  let ps := if parameters.isEmpty then ["2006-01-02"] else parameters
  match parseDate value (ps.headD "") with
  | .ok t => (true, formSet form field (.time t))
  | .error _ => (false, form)

/-- `validateBefore` from the source. -/
def validateBefore (_field : String) (value : GoValue) (parameters : List String)
    (form : Form) : Except String Bool :=
  match requireParametersCount "before" parameters 1 with
  | .error e => .error e
  | .ok _ =>
      match getDates value parameters form with
      | .panics m => .error m
      | .err _ => .ok false
      | .ok (d0 :: d1 :: _) => .ok (timeBefore d0 d1)
      | .ok _ => .error "index out of range"

/-- `validateBeforeEqual` from the source. -/
def validateBeforeEqual (_field : String) (value : GoValue) (parameters : List String)
    (form : Form) : Except String Bool :=
  match requireParametersCount "before_equal" parameters 1 with
  | .error e => .error e
  | .ok _ =>
      match getDates value parameters form with
      | .panics m => .error m
      | .err _ => .ok false
      | .ok (d0 :: d1 :: _) => .ok (timeBefore d0 d1 || timeEqual d0 d1)
      | .ok _ => .error "index out of range"

/-- `validateAfter` from the source. -/
def validateAfter (_field : String) (value : GoValue) (parameters : List String)
    (form : Form) : Except String Bool :=
  match requireParametersCount "after" parameters 1 with
  | .error e => .error e
  | .ok _ =>
      match getDates value parameters form with
      | .panics m => .error m
      | .err _ => .ok false
      | .ok (d0 :: d1 :: _) => .ok (timeAfter d0 d1)
      | .ok _ => .error "index out of range"

/-- `validateAfterEqual` from the source. -/
def validateAfterEqual (_field : String) (value : GoValue) (parameters : List String)
    (form : Form) : Except String Bool :=
  match requireParametersCount "after_equal" parameters 1 with
  | .error e => .error e
  | .ok _ =>
      match getDates value parameters form with
      | .panics m => .error m
      | .err _ => .ok false
      | .ok (d0 :: d1 :: _) => .ok (timeAfter d0 d1 || timeEqual d0 d1)
      | .ok _ => .error "index out of range"

/-- `validateDateEquals` from the source. -/
def validateDateEquals (_field : String) (value : GoValue) (parameters : List String)
    (form : Form) : Except String Bool :=
  match requireParametersCount "date_equals" parameters 1 with
  | .error e => .error e
  | .ok _ =>
      match getDates value parameters form with
      | .panics m => .error m
      | .err _ => .ok false
      | .ok (d0 :: d1 :: _) => .ok (timeEqual d0 d1)
      | .ok _ => .error "index out of range"

/-- `validateDateBetween` from the source. -/
def validateDateBetween (_field : String) (value : GoValue) (parameters : List String)
    (form : Form) : Except String Bool :=
  match requireParametersCount "date_between" parameters 2 with
  | .error e => .error e
  | .ok _ =>
      match getDates value parameters form with
      | .panics m => .error m
      | .err _ => .ok false
      | .ok (d0 :: d1 :: d2 :: _) =>
          .ok ((timeAfter d0 d1 || timeEqual d0 d1) && (timeBefore d0 d2 || timeEqual d0 d2))
      | .ok _ => .error "index out of range"

/-!
## Helper lemmas and concrete chains
-/

/-- The chain `Parse` produces for the path string `"a.b[].c"`. -/
def pathABC : Path :=
  .mk (some (.mk (some (.mk (some (.mk none none "c" .element)) none "" .object))
    none "b" .array)) none "a" .object

/-- The chain `Parse` produces for the path string `"a.b"`. -/
def pathAB : Path :=
  .mk (some (.mk none none "b" .element)) none "a" .object

/-- The chain `Parse` produces for the path string `"list[].x"`. -/
def pathListX : Path :=
  .mk (some (.mk (some (.mk none none "x" .element)) none "" .object)) none "list" .array

/-- The chain `Parse` produces for the path string `"list[]"`. -/
def pathListLeaf : Path :=
  .mk (some (.mk none none "" .element)) none "list" .array

/-- The three-element list of objects from the fan-out example. -/
def elems3 : List GoValue :=
  [.obj [("x", .int 1)], .obj [("x", .int 2)], .obj [("x", .int 3)]]

/-- The route path recorded in the context produced for element `i` of
a fan-out walk of `list[].x`: the array step carries the element's
index. -/
def fanRoute (i : Nat) : List RStep :=
  [⟨"list", some (i : Int), .array⟩, ⟨"", none, .object⟩, ⟨"x", none, .element⟩]

/-- The single context the walk of `list[].x` produces for element `i`
holding value `v`: the resolved `"x"` member when `v` is an object
with that key, a not-found context otherwise. -/
def fanCtx (i : Nat) (v : GoValue) : Context :=
  match v with
  | .obj fields =>
      match lookupField fields "x" with
      | some w =>
          { value := w, parent := .obj fields, path := fanRoute i,
            name := "x", index := -1, notFound := false }
      | none => newNotFoundContext (.obj fields) (fanRoute i) "x" (-1)
  | other => newNotFoundContext other (fanRoute i) "x" (i : Int)

/-- A timestamp strictly below `dtMid`. -/
def dtLow : DateTime := ⟨2023, 5, 10, 0, 0, 0⟩

/-- A timestamp between `dtLow` and `dtHigh`. -/
def dtMid : DateTime := ⟨2023, 6, 1, 0, 0, 0⟩

/-- A timestamp above the other two. -/
def dtHigh : DateTime := ⟨2023, 12, 31, 0, 0, 0⟩

/-- Chain invariant phrased on a step list: last step is an element
step, all earlier steps are not. -/
def listChainOk : List Step → Bool
  | [] => false
  | [s] => s.ty = .element
  | s :: t :: rest => (s.ty ≠ .element) && listChainOk (t :: rest)

theorem timeBefore_or_equal (a b : DateTime) :
    (timeBefore a b || timeEqual a b) = decide (a.encode ≤ b.encode) := by
  rw [Bool.eq_iff_iff]
  simp [timeBefore, timeEqual]
  omega

theorem timeAfter_or_equal (a b : DateTime) :
    (timeAfter a b || timeEqual a b) = decide (b.encode ≤ a.encode) := by
  rw [Bool.eq_iff_iff]
  simp [timeAfter, timeEqual]
  omega

theorem formGet_formSet_self (form : Form) (key : String) (v : GoValue) :
    formGet (formSet form key v) key = some v := by
  induction form with
  | nil => simp [formGet, formSet]
  | cons kv rest ih =>
      obtain ⟨k, w⟩ := kv
      by_cases hk : k = key
      · simp [formGet, formSet, hk]
      · simp [formGet, formSet, hk, ih]

theorem formGet_formSet_other (form : Form) (key k : String) (v : GoValue)
    (hne : k ≠ key) : formGet (formSet form key v) k = formGet form k := by
  induction form with
  | nil => simp [formGet, formSet, Ne.symm hne]
  | cons kv rest ih =>
      obtain ⟨k1, w⟩ := kv
      by_cases h1 : k1 = key
      · subst h1
        simp [formGet, formSet, hne, Ne.symm hne]
      · by_cases h2 : k1 = k
        · subst h2
          simp [formGet, formSet, h1, hne]
        · simp [formGet, formSet, h1, h2, ih]

theorem processTok_inv (st : ParseState) (t : String)
    (h : ∀ s ∈ st.1, s.ty ≠ .element) :
    ∀ s ∈ (processTok st t).1, s.ty ≠ .element := by
  intro s hs
  simp only [processTok] at hs
  split_ifs at hs with h1 h2 h3 h4
  · rcases List.mem_append.mp hs with hm | hm
    · exact h s hm
    · simp only [List.mem_singleton] at hm
      rw [hm, h2]
      simp
  · exact h s hs
  · rcases List.mem_append.mp hs with hm | hm
    · exact h s hm
    · rcases List.mem_cons.mp hm with hm1 | hm1
      · rw [hm1, h4]
        simp
      · simp only [List.mem_singleton] at hm1
        rw [hm1]
        simp
  · rcases List.mem_append.mp hs with hm | hm
    · exact h s hm
    · simp only [List.mem_singleton] at hm
      rw [hm]
      simp
  · exact h s hs

theorem foldl_processTok_inv (toks : List String) :
    ∀ (st : ParseState), (∀ s ∈ st.1, s.ty ≠ .element) →
      ∀ s ∈ (toks.foldl processTok st).1, s.ty ≠ .element := by
  induction toks with
  | nil => intro st h; simpa using h
  | cons t ts ih =>
      intro st h
      simp only [List.foldl_cons]
      exact ih _ (processTok_inv st t h)

theorem chainInv_stepsToChain : ∀ (rest : List Step) (s : Step),
    (stepsToChain s rest).chainInv = listChainOk (s :: rest) := by
  intro rest
  induction rest with
  | nil => intro s; rfl
  | cons t ts ih =>
      intro s
      simp [stepsToChain, Path.chainInv, listChainOk, ih t]

theorem listChainOk_append : ∀ (l m : List Step), m ≠ [] →
    (∀ x ∈ l, x.ty ≠ .element) → listChainOk m = true →
    listChainOk (l ++ m) = true := by
  intro l
  induction l with
  | nil => intro m _ _ hok; simpa using hok
  | cons x l' ih =>
      intro m hm hall hok
      have hx : x.ty ≠ .element := hall x (by simp)
      have hrest : listChainOk (l' ++ m) = true :=
        ih m hm (fun y hy => hall y (by simp [hy])) hok
      have hne : l' ++ m ≠ [] := by
        intro hc
        exact hm (List.append_eq_nil.mp hc).2
      cases he : l' ++ m with
      | nil => exact absurd he hne
      | cons y ys =>
          rw [List.cons_append, he]
          rw [he] at hrest
          simp [listChainOk, hx, hrest]

theorem buildPath_inv (toks : List String) : (buildPath toks).chainInv = true := by
  unfold buildPath
  have hall := foldl_processTok_inv toks ([], ⟨"", none, .element⟩) (by simp)
  set st := toks.foldl processTok ([], ⟨"", none, .element⟩) with hst
  have hfin : listChainOk (finalizeSteps st) = true := by
    unfold finalizeSteps
    split_ifs with h
    · exact listChainOk_append st.1 [st.2, ⟨"", none, .element⟩] (by simp) hall
        (by simp [listChainOk, h])
    · have h2 : st.2.ty = .element := not_not.mp h
      exact listChainOk_append st.1 [st.2] (by simp) hall (by simp [listChainOk, h2])
  cases hfs : finalizeSteps st with
  | nil => rw [hfs] at hfin; simp [listChainOk] at hfin
  | cons s rest =>
      rw [hfs] at hfin
      rw [chainInv_stepsToChain]
      exact hfin

/-!
## Claim theorems
-/

/-- C1 (counterexample): `Parse "a.b[].c"` yields the kind list
`[Object, Array, Object, Leaf]` (four steps), not the claimed
`[Object, Object, Array, Object, Leaf]`. -/
theorem C1_counterexample :
    (Parse "a.b[].c").map Path.kinds
        = .ok [PathType.object, .array, .object, .element] ∧
    [PathType.object, .array, .object, .element]
        ≠ [PathType.object, .object, .array, .object, .element] :=
  ⟨rfl, by decide⟩

/-- C1 (amended): `Parse "a.b[].c"` returns a chain whose kinds in
order are Object, Array, Object, Leaf; on that result `HasArray`
returns true and `Tail` returns the final leaf step (named `"c"`,
with nil successor). -/
theorem C1_parse_structure : ∀ p, Parse "a.b[].c" = .ok p →
    p.kinds = [PathType.object, .array, .object, .element] ∧
    p.hasArray = true ∧
    p.tail = .mk none none "c" .element := by
  intro p h
  have hp : Parse "a.b[].c" = .ok pathABC := rfl
  rw [hp] at h
  injection h with h
  subst h
  exact ⟨rfl, rfl, rfl⟩

/-- C1 witness: the amended claim instantiated at the parsed chain. -/
theorem C1_parse_structure_witness :
    pathABC.kinds = [PathType.object, .array, .object, .element] ∧
    pathABC.hasArray = true ∧
    pathABC.tail = .mk none none "c" .element :=
  C1_parse_structure pathABC rfl

/-- C8: the malformed paths `".a"`, `"a..b"`, `"a["`, `"a]b"` are all
rejected with an error naming the offending path, `"a[].b"` parses
successfully, and in general a leading dot fails the parse while the
scanner's `isValidSyntax` flags consecutive dots, a dot before a
bracket, a non-name character (other than `[`) before `]`, and `]`
not followed by `.` or `[`. -/
theorem C8_path_syntax_rejected :
    Parse ".a" = .error "Illegal syntax: \".a\"" ∧
    Parse "a..b" = .error "Illegal syntax: \"a..b\"" ∧
    Parse "a[" = .error "Illegal syntax: \"a[\"" ∧
    Parse "a]b" = .error "Illegal syntax: \"a]b\"" ∧
    Parse "a[].b"
      = .ok (.mk (some (.mk (some (.mk none none "b" .element)) none "" .object))
          none "a" .array) ∧
    (∀ s : String, s.data.head? = some '.' →
        Parse s = .error ("Illegal syntax: \"" ++ s ++ "\"")) ∧
    isValidSyntax '.' '.' = true ∧
    isValidSyntax '.' '[' = true ∧
    isValidSyntax '.' ']' = true ∧
    (∀ r, r ≠ '.' → r ≠ '[' → isValidSyntax r ']' = true) ∧
    (∀ nxt, nxt ≠ '[' → nxt ≠ '.' → isValidSyntax ']' nxt = true) := by
  refine ⟨rfl, rfl, rfl, rfl, rfl, ?_, rfl, rfl, rfl, ?_, ?_⟩
  · intro s h
    cases hd : s.data with
    | nil => rw [hd] at h; simp at h
    | cons c cs =>
        rw [hd] at h
        simp only [List.head?_cons, Option.some.injEq] at h
        subst h
        simp [Parse, tokenize, tokenizeAux, splitOnce, hd, Except.map]
  · intro r h1 h2
    simp [ isValidSyntax, h1, h2]
  · intro nxt h1 h2
    simp [ isValidSyntax, h1, h2]

/-- C8 witness: the general clauses instantiated at concrete
characters and at a concrete leading-dot path. -/
theorem C8_path_syntax_rejected_witness :
    Parse ".z" = .error ("Illegal syntax: \"" ++ ".z" ++ "\"") ∧
    isValidSyntax 'z' ']' = true ∧
    isValidSyntax ']' 'z' = true :=
  ⟨C8_path_syntax_rejected.2.2.2.2.2.1 ".z" rfl,
   C8_path_syntax_rejected.2.2.2.2.2.2.2.2.2.1 'z' (by decide) (by decide),
   C8_path_syntax_rejected.2.2.2.2.2.2.2.2.2.2 'z' (by decide) (by decide)⟩

/-- C9: every chain returned by a successful `Parse` satisfies the
invariant that non-leaf steps have a non-nil successor and the
terminal leaf step has a nil successor. -/
theorem C9_chain_invariant : ∀ (s : String) (p : Path),
    Parse s = .ok p → p.chainInv = true := by
  intro s p h
  unfold Parse at h
  cases htok : tokenize s with
  | error e => rw [htok] at h; simp [Except.map] at h
  | ok toks =>
      rw [htok] at h
      simp only [Except.map, Except.ok.injEq] at h
      subst h
      exact buildPath_inv toks

/-- C9 witness: the invariant instantiated at the parse of
`"a.b[].c"`. -/
theorem C9_chain_invariant_witness : pathABC.chainInv = true :=
  C9_chain_invariant "a.b[].c" pathABC rfl

theorem walk_objX_eq (i : Nat) (v : GoValue) (parent : GoValue) :
    walkF (.mk (some (.mk none none "x" .element)) none "" .object) v parent
      (i : Int) [⟨"list", some (i : Int), .array⟩] ⟨"", none, .object⟩ = [fanCtx i v] := by
  cases v with
  | obj fields =>
      cases hl : lookupField fields "x" with
      | none => simp [walkF, fanCtx, fanRoute, hl, Path.name, Path.ty, newNotFoundContext]
      | some w => simp [walkF, fanCtx, fanRoute, hl, Path.name, Path.ty]
  | null => rfl
  | str s => rfl
  | int n => rfl
  | time t => rfl
  | arr a => rfl

theorem walk_listX_eq (elems : List GoValue) (hne : elems ≠ []) :
    pathListX.Walk (.obj [("list", .arr elems)])
      = (elems.enum.map (fun iv =>
          walkF (.mk (some (.mk none none "x" .element)) none "" .object) iv.2 (.arr elems)
            (iv.1 : Int) [⟨"list", some (iv.1 : Int), .array⟩] ⟨"", none, .object⟩)).flatten := by
  cases elems with
  | nil => exact absurd rfl hne
  | cons e es => rfl

theorem flatten_map_singleton {α β : Type} (l : List α) (f : α → β) :
    (l.map (fun x => [f x])).flatten = l.map f := by
  induction l with
  | nil => rfl
  | cons x xs ih => simp [ih]

theorem fanCtx_route (i : Nat) (v : GoValue) :
    (fanCtx i v).path.filterMap RStep.index = [(i : Int)] := by
  cases v with
  | obj fields =>
      cases hl : lookupField fields "x" with
      | none => simp [fanCtx, fanRoute, hl, newNotFoundContext, RStep.index]
      | some w => simp [fanCtx, fanRoute, hl, RStep.index]
  | null => rfl
  | str s => rfl
  | int n => rfl
  | time t => rfl
  | arr a => rfl

/-- C4: for every non-empty sequence stored under the key, walking it
with the parsed path `list[].x` (whose array step has no fixed index)
invokes the callback exactly once per element of the sequence — the
result is exactly one context per element, in element order — and the
invocation for element `i` carries that element's index (in the route
path's array step) and its resolved value (the element's `"x"` member
when present). -/
theorem C4_fanout_cardinality : ∀ p, Parse "list[].x" = .ok p →
    ∀ (elems : List GoValue), elems ≠ [] →
      p.Walk (.obj [("list", .arr elems)])
          = elems.enum.map (fun iv => fanCtx iv.1 iv.2) ∧
      (p.Walk (.obj [("list", .arr elems)])).length = elems.length ∧
      ∀ i, i < elems.length →
        (p.Walk (.obj [("list", .arr elems)]))[i]?.map
            (fun c => c.path.filterMap RStep.index) = some [(i : Int)] ∧
        ∀ fields w, elems[i]? = some (.obj fields) → lookupField fields "x" = some w →
          (p.Walk (.obj [("list", .arr elems)]))[i]?.map
              (fun c => (c.value, c.notFound)) = some (w, false) := by
  intro p h elems hne
  have hp : Parse "list[].x" = .ok pathListX := rfl
  rw [hp] at h
  injection h with h
  subst h
  have heq : pathListX.Walk (.obj [("list", .arr elems)])
      = elems.enum.map (fun iv => fanCtx iv.1 iv.2) := by
    rw [walk_listX_eq elems hne]
    rw [show (fun iv : Nat × GoValue =>
          walkF (.mk (some (.mk none none "x" .element)) none "" .object) iv.2 (.arr elems)
            (iv.1 : Int) [⟨"list", some (iv.1 : Int), .array⟩] ⟨"", none, .object⟩)
        = fun iv : Nat × GoValue => [fanCtx iv.1 iv.2] from
      funext fun iv => walk_objX_eq iv.1 iv.2 (.arr elems)]
    exact flatten_map_singleton _ _
  have hW : ∀ (i : Nat) (v : GoValue), elems[i]? = some v →
      (pathListX.Walk (.obj [("list", .arr elems)]))[i]? = some (fanCtx i v) := by
    intro i v hv
    rw [heq, List.getElem?_map, List.getElem?_enum, hv]
    rfl
  refine ⟨heq, ?_, ?_⟩
  · rw [heq]
    simp
  · intro i hi
    have hv : elems[i]? = some (elems.get ⟨i, hi⟩) := by
      simp [List.getElem?_eq_getElem hi, List.get_eq_getElem]
    constructor
    · rw [hW i (elems.get ⟨i, hi⟩) hv]
      simp [fanCtx_route]
    · intro fields w hf hw
      rw [hW i (.obj fields) hf]
      simp [fanCtx, hw]

/-- C4 witness: the fan-out cardinality at the three-element example
sequence, with the second invocation's index and resolved value. -/
theorem C4_fanout_cardinality_witness :
    pathListX.Walk (.obj [("list", .arr elems3)])
        = elems3.enum.map (fun iv => fanCtx iv.1 iv.2) ∧
    (pathListX.Walk (.obj [("list", .arr elems3)])).length = 3 ∧
    (pathListX.Walk (.obj [("list", .arr elems3)]))[1]?.map
        (fun c => c.path.filterMap RStep.index) = some [(1 : Int)] ∧
    (pathListX.Walk (.obj [("list", .arr elems3)]))[1]?.map
        (fun c => (c.value, c.notFound)) = some (.int 2, false) := by
  have h := C4_fanout_cardinality pathListX rfl elems3 (by simp [elems3])
  refine ⟨h.1, (h.2.1).trans rfl, (h.2.2 1 (by decide)).1, ?_⟩
  exact (h.2.2 1 (by decide)).2 [("x", .int 2)] (.int 2) rfl rfl

/-- C5: walking `{"a": \x7b\x7d}` with the parsed path `a.b` invokes
the callback exactly once with not-found true and value nil, while
walking `{"a": {"b": null}}` with the same path invokes it once with
not-found false and value nil: a present null is distinguished from an
absent key. -/
theorem C5_not_found : ∀ p, Parse "a.b" = .ok p →
    (p.Walk (.obj [("a", .obj [])])).map (fun c => (c.notFound, c.value))
      = [(true, .null)] ∧
    (p.Walk (.obj [("a", .obj [("b", .null)])])).map (fun c => (c.notFound, c.value))
      = [(false, .null)] := by
  intro p h
  have hp : Parse "a.b" = .ok pathAB := rfl
  rw [hp] at h
  injection h with h
  subst h
  exact ⟨rfl, rfl⟩

/-- C5 witness: the not-found semantics instantiated at the parsed
chain. -/
theorem C5_not_found_witness :
    (pathAB.Walk (.obj [("a", .obj [])])).map (fun c => (c.notFound, c.value))
      = [(true, .null)] ∧
    (pathAB.Walk (.obj [("a", .obj [("b", .null)])])).map (fun c => (c.notFound, c.value))
      = [(false, .null)] :=
  C5_not_found pathAB rfl

/-- C10: a fan-out array step reached on an empty sequence produces no
callback when its successor is the terminal leaf step, and exactly one
not-found callback when its successor is not a leaf step; concretely,
walking `{"list": []}` with `list[]` invokes the callback zero times
and with `list[].x` exactly once with not-found true. -/
theorem C10_empty_fanout :
    (∀ (nxt : Path) (parent : GoValue) (index : Int) (routeRev : List RStep) (cur : RStep),
      walkF (.mk (some nxt) none "" .array) (.arr []) parent index routeRev cur
        = if nxt.ty = .element then []
          else [newNotFoundContext (.arr []) ((cur :: routeRev).reverse) "" index]) ∧
    (∀ p, Parse "list[]" = .ok p → p.Walk (.obj [("list", .arr [])]) = []) ∧
    (∀ p, Parse "list[].x" = .ok p →
      (p.Walk (.obj [("list", .arr [])])).map (fun c => (c.notFound, c.value, c.name))
        = [(true, .null, "")]) := by
  refine ⟨?_, ?_, ?_⟩
  · intro nxt parent index routeRev cur
    cases nxt with
    | mk n i nm t =>
        cases t <;> simp [walkF, Path.name, Path.ty]
  · intro p h
    have hp : Parse "list[]" = .ok pathListLeaf := rfl
    rw [hp] at h
    injection h with h
    subst h
    rfl
  · intro p h
    have hp : Parse "list[].x" = .ok pathListX := rfl
    rw [hp] at h
    injection h with h
    subst h
    rfl

/-- C10 witness: the empty fan-out behavior instantiated at concrete
successor steps and at the parsed chains. -/
theorem C10_empty_fanout_witness :
    walkF (.mk (some (.mk none none "" .element)) none "" .array) (.arr [])
        .null (-1) [] ⟨"list", none, .array⟩ = [] ∧
    pathListLeaf.Walk (.obj [("list", .arr [])]) = [] ∧
    (pathListX.Walk (.obj [("list", .arr [])])).map (fun c => (c.notFound, c.value, c.name))
      = [(true, .null, "")] :=
  ⟨(C10_empty_fanout.1 (.mk none none "" .element) .null (-1) [] ⟨"list", none, .array⟩).trans rfl,
   C10_empty_fanout.2.1 pathListLeaf rfl,
   C10_empty_fanout.2.2 pathListX rfl⟩

/-- C6: once the comparison timestamps are resolved, `before` passes
iff strictly less, `before_equal` iff less-or-equal, `after` iff
strictly greater, `after_equal` iff greater-or-equal, `date_equals`
iff equal, and `date_between` iff the field's timestamp lies in the
inclusive range of its two parameters. -/
theorem C6_comparison_semantics (field : String) (value : GoValue)
    (params : List String) (form : Form) (d0 d1 d2 : DateTime) :
    (params.length = 1 → getDates value params form = .ok [d0, d1] →
      validateBefore field value params form = .ok (decide (d0.encode < d1.encode)) ∧
      validateBeforeEqual field value params form = .ok (decide (d0.encode ≤ d1.encode)) ∧
      validateAfter field value params form = .ok (decide (d1.encode < d0.encode)) ∧
      validateAfterEqual field value params form = .ok (decide (d1.encode ≤ d0.encode)) ∧
      validateDateEquals field value params form = .ok (decide (d0.encode = d1.encode))) ∧
    (params.length = 2 → getDates value params form = .ok [d0, d1, d2] →
      validateDateBetween field value params form
        = .ok (decide (d1.encode ≤ d0.encode ∧ d0.encode ≤ d2.encode))) := by
  constructor
  · intro h1 h2
    have hrc : ∀ r : String, requireParametersCount r params 1 = .ok () := by
      intro r
      simp [requireParametersCount, h1]
    refine ⟨?_, ?_, ?_, ?_, ?_⟩
    · simp [validateBefore, hrc, h2, timeBefore]
    · simp only [validateBeforeEqual, hrc, h2, timeBefore_or_equal]
    · simp [validateAfter, hrc, h2, timeAfter]
    · simp only [validateAfterEqual, hrc, h2, timeAfter_or_equal]
    · simp [validateDateEquals, hrc, h2, timeEqual]
  · intro h1 h2
    have hrc : requireParametersCount "date_between" params 2 = .ok () := by
      simp [requireParametersCount, h1]
    simp only [validateDateBetween, hrc, h2, timeBefore_or_equal, timeAfter_or_equal]
    congr 1
    rw [Bool.eq_iff_iff]
    simp

/-- C6 witness: the comparison semantics instantiated with timestamps
resolved from sibling form fields. -/
theorem C6_comparison_semantics_witness :
    validateBefore "f" (.time dtLow) ["p"] [("p", .time dtMid)]
      = .ok (decide (dtLow.encode < dtMid.encode)) ∧
    validateBeforeEqual "f" (.time dtLow) ["p"] [("p", .time dtMid)]
      = .ok (decide (dtLow.encode ≤ dtMid.encode)) ∧
    validateAfter "f" (.time dtLow) ["p"] [("p", .time dtMid)]
      = .ok (decide (dtMid.encode < dtLow.encode)) ∧
    validateAfterEqual "f" (.time dtLow) ["p"] [("p", .time dtMid)]
      = .ok (decide (dtMid.encode ≤ dtLow.encode)) ∧
    validateDateEquals "f" (.time dtLow) ["p"] [("p", .time dtMid)]
      = .ok (decide (dtLow.encode = dtMid.encode)) ∧
    validateDateBetween "f" (.time dtLow) ["p", "q"]
        [("p", .time dtMid), ("q", .time dtHigh)]
      = .ok (decide (dtMid.encode ≤ dtLow.encode ∧ dtLow.encode ≤ dtHigh.encode)) := by
  have h1 := (C6_comparison_semantics "f" (.time dtLow) ["p"] [("p", .time dtMid)]
      dtLow dtMid dtHigh).1 rfl rfl
  have h2 := (C6_comparison_semantics "f" (.time dtLow) ["p", "q"]
      [("p", .time dtMid), ("q", .time dtHigh)] dtLow dtMid dtHigh).2 rfl rfl
  exact ⟨h1.1, h1.2.1, h1.2.2.1, h1.2.2.2.1, h1.2.2.2.2, h2⟩

/-- C7: the `date` rule parses the raw value with its first parameter
as layout (default date-only layout when none is given); on success it
stores the parsed timestamp under the field in the form and passes,
leaving every other key unchanged; on failure it fails and leaves the
form untouched. -/
theorem C7_date_rule (field : String) (value : GoValue) (params : List String)
    (form : Form) :
    (∀ t, parseDate value ((if params.isEmpty then ["2006-01-02"] else params).headD "")
        = .ok t →
      (validateDate field value params form).1 = true ∧
      formGet (validateDate field value params form).2 field = some (.time t) ∧
      ∀ k, k ≠ field →
        formGet (validateDate field value params form).2 k = formGet form k) ∧
    (∀ e, parseDate value ((if params.isEmpty then ["2006-01-02"] else params).headD "")
        = .error e →
      validateDate field value params form = (false, form)) := by
  constructor
  · intro t ht
    have hv : validateDate field value params form = (true, formSet form field (.time t)) := by
      simp only [validateDate]
      rw [ht]
    rw [hv]
    exact ⟨rfl, formGet_formSet_self form field (.time t),
      fun k hk => formGet_formSet_other form field k (.time t) hk⟩
  · intro e he
    simp only [validateDate]
    rw [he]

/-- C7 witness: the `date` rule at a parseable and an unparseable
value. -/
theorem C7_date_rule_witness :
    (validateDate "d" (.str "2023-01-01") [] [("other", .int 5)]).1 = true ∧
    formGet (validateDate "d" (.str "2023-01-01") [] [("other", .int 5)]).2 "d"
      = some (.time ⟨2023, 1, 1, 0, 0, 0⟩) ∧
    formGet (validateDate "d" (.str "2023-01-01") [] [("other", .int 5)]).2 "other"
      = formGet [("other", .int 5)] "other" ∧
    validateDate "d" (.str "nope") [] [("other", .int 5)] = (false, [("other", .int 5)]) := by
  have h1 := (C7_date_rule "d" (.str "2023-01-01") [] [("other", .int 5)]).1
      ⟨2023, 1, 1, 0, 0, 0⟩ rfl
  have h2 := (C7_date_rule "d" (.str "nope") [] [("other", .int 5)]).2
      "parsing time \"nope\" as \"2006-01-02\": cannot parse" rfl
  exact ⟨h1.1, h1.2.1, h1.2.2 "other" (by decide), h2⟩

/-- C2 (counterexample): `before` evaluated on a valid primary
timestamp with a parameter that names no form field and is not a
parseable literal datetime does NOT return false: it panics (the
`panic(err)` in `getDates`), refuting "never raises an error or panic
to the caller" for every parameter list. -/
theorem C2_counterexample :
    validateBefore "f" (.time ⟨2023, 1, 1, 0, 0, 0⟩) ["notadate"] []
        = .error "parsing time \"notadate\" as \"2006-01-02T15:04:05\": cannot parse" ∧
    validateBefore "f" (.time ⟨2023, 1, 1, 0, 0, 0⟩) ["notadate"] [] ≠ .ok false :=
  ⟨rfl, fun h => Except.noConfusion
    (h.symm.trans (rfl : validateBefore "f" (.time ⟨2023, 1, 1, 0, 0, 0⟩) ["notadate"] []
      = .error "parsing time \"notadate\" as \"2006-01-02T15:04:05\": cannot parse"))⟩

/-- C2 (amended): the comparison rules fail closed — return false
without error or panic — when the primary value is not a previously
parsed timestamp, and when a parameter's sibling field value fails to
parse; the exception is a parameter naming no form field whose literal
datetime parse fails, which panics. -/
theorem C2_fail_closed (field : String) (value : GoValue) (params : List String)
    (form : Form) :
    ((∀ d, value ≠ .time d) → params.length = 1 →
       validateBefore field value params form = .ok false ∧
       validateBeforeEqual field value params form = .ok false ∧
       validateAfter field value params form = .ok false ∧
       validateAfterEqual field value params form = .ok false ∧
       validateDateEquals field value params form = .ok false) ∧
    ((∀ d, value ≠ .time d) → params.length = 2 →
       validateDateBetween field value params form = .ok false) ∧
    (∀ d p s, value = .time d → params = [p] → formGet form p = some (.str s) →
       timeParse "2006-01-02" s = none →
       validateBefore field value params form = .ok false) := by
  have hnd : (∀ d, value ≠ .time d) →
      getDates value params form = .err "Value is not a date" := by
    intro h
    cases value with
    | time d => exact absurd rfl (h d)
    | null => rfl
    | str s => rfl
    | int n => rfl
    | obj f => rfl
    | arr a => rfl
  refine ⟨fun h hl => ?_, fun h hl => ?_, fun d p s hv hp hf ht => ?_⟩
  · have hg := hnd h
    refine ⟨?_, ?_, ?_, ?_, ?_⟩ <;>
      simp [validateBefore, validateBeforeEqual, validateAfter, validateAfterEqual,
        validateDateEquals, requireParametersCount, hl, hg]
  · have hg := hnd h
    simp [validateDateBetween, requireParametersCount, hl, hg]
  · subst hv
    subst hp
    have hg : getDates (.time d) [p] form = .err "Cannot parse date in other field" := by
      simp [getDates, getDatesLoop, hf, parseDate, ht]
    simp [validateBefore, requireParametersCount, hg]

/-- C2 witness: fail-closed behavior at a non-date primary value and
at an unparseable sibling field value. -/
theorem C2_fail_closed_witness :
    validateBefore "f" (.str "x") ["p"] [] = .ok false ∧
    validateBeforeEqual "f" (.str "x") ["p"] [] = .ok false ∧
    validateAfter "f" (.str "x") ["p"] [] = .ok false ∧
    validateAfterEqual "f" (.str "x") ["p"] [] = .ok false ∧
    validateDateEquals "f" (.str "x") ["p"] [] = .ok false ∧
    validateDateBetween "f" (.str "x") ["p", "q"] [] = .ok false ∧
    validateBefore "f" (.time ⟨2023, 1, 1, 0, 0, 0⟩) ["p"] [("p", .str "zz")] = .ok false := by
  have h1 := (C2_fail_closed "f" (.str "x") ["p"] []).1
      (fun d h => GoValue.noConfusion h) rfl
  have h2 := (C2_fail_closed "f" (.str "x") ["p", "q"] []).2.1
      (fun d h => GoValue.noConfusion h) rfl
  have h3 := (C2_fail_closed "f" (.time ⟨2023, 1, 1, 0, 0, 0⟩) ["p"] [("p", .str "zz")]).2.2
      ⟨2023, 1, 1, 0, 0, 0⟩ "p" "zz" rfl rfl rfl rfl
  exact ⟨h1.1, h1.2.1, h1.2.2.1, h1.2.2.2.1, h1.2.2.2.2, h2, h3⟩

/-- C3 (counterexample): a wrong parameter count is NOT detected
before request-time rule evaluation — evaluating `before` with zero
parameters (or `date_between` with one) is exactly where the halt
happens, refuting "the violation is never deferred to request-time
rule evaluation". -/
theorem C3_counterexample :
    validateBefore "f" (.time ⟨2023, 1, 1, 0, 0, 0⟩) [] []
        = .error "Rule before requires exactly 1 parameter(s)" ∧
    validateDateBetween "f" (.time ⟨2023, 1, 1, 0, 0, 0⟩) ["2023-01-01"] []
        = .error "Rule date_between requires exactly 2 parameter(s)" :=
  ⟨rfl, rfl⟩

/-- C3 (amended): the parameter-count contract is enforced inside each
rule function at evaluation time: evaluating `before`, `before_equal`,
`after`, `after_equal` or `date_equals` with a parameter count other
than 1, or `date_between` with a count other than 2, halts (panics)
there; no registration-time check exists in the code. -/
theorem C3_param_count (field : String) (value : GoValue) (params : List String)
    (form : Form) :
    (params.length ≠ 1 →
      validateBefore field value params form
        = .error "Rule before requires exactly 1 parameter(s)" ∧
      validateBeforeEqual field value params form
        = .error "Rule before_equal requires exactly 1 parameter(s)" ∧
      validateAfter field value params form
        = .error "Rule after requires exactly 1 parameter(s)" ∧
      validateAfterEqual field value params form
        = .error "Rule after_equal requires exactly 1 parameter(s)" ∧
      validateDateEquals field value params form
        = .error "Rule date_equals requires exactly 1 parameter(s)") ∧
    (params.length ≠ 2 →
      validateDateBetween field value params form
        = .error "Rule date_between requires exactly 2 parameter(s)") := by
  constructor
  · intro hl
    have hrc : ∀ r : String, requireParametersCount r params 1
        = .error ("Rule " ++ r ++ " requires exactly " ++ toString 1 ++ " parameter(s)") := by
      intro r
      unfold requireParametersCount
      rw [if_pos hl]
    refine ⟨?_, ?_, ?_, ?_, ?_⟩ <;>
      simp [validateBefore, validateBeforeEqual, validateAfter, validateAfterEqual,
        validateDateEquals, hrc] <;> rfl
  · intro hl
    have hrc : requireParametersCount "date_between" params 2
        = .error ("Rule " ++ "date_between" ++ " requires exactly " ++ toString 2
            ++ " parameter(s)") := by
      unfold requireParametersCount
      rw [if_pos hl]
    simp [validateDateBetween, hrc]
    rfl

/-- C3 witness: the evaluation-time halt at zero parameters. -/
theorem C3_param_count_witness :
    validateBefore "g" (.str "v") [] [] = .error "Rule before requires exactly 1 parameter(s)" ∧
    validateDateBetween "g" (.str "v") [] []
      = .error "Rule date_between requires exactly 2 parameter(s)" := by
  have h := C3_param_count "g" (.str "v") [] []
  exact ⟨(h.1 (by decide)).1, h.2 (by decide)⟩

end Goyave
